import Mathlib

/-!
Verification of the ph-operator control loops (Peitch repository).

This file gives a shallow embedding, in Lean 4, of the pure decision logic of
the `ph_operator` Kubernetes controllers found under
`k8s/operators/ph_operator/src/controllers/`:

* `release_controller.rs` — duration parsing, the canary analysis decision
  step, metric-history bookkeeping, and the mandatory signature-verification
  pre-flight check;
* `metrics_analyzer.rs` — Prometheus query-result extraction, the
  success-condition expression evaluator, trend analysis, and `analyze`;
* `preview_controller.rs` — namespace-name generation and the finalizer
  cleanup handler;
* `autoheal_controller.rs` — duration parsing and the cooldown gate of
  `process_rule`;
* `dr_controller.rs` — the `Monitoring` arm of the reconcile state machine.

Modelling conventions:

* Rust `u64`/`u32` values are modelled as `Nat`, with an explicit `% 2 ^ 64`
  (resp. `% 2 ^ 32`) at the arithmetic operations where Rust release builds
  would wrap.
* Rust `f64` values are modelled as exact rationals (`Rat`); the special
  values `+Inf`/`-Inf` produced by the Prometheus client are modelled by a
  dedicated sum type.  All concrete inputs used in the theorems below are
  small integers, on which IEEE double arithmetic and exact rational
  arithmetic agree.
* Side-effecting Kubernetes API calls are modelled by explicit outcome
  parameters (for calls the code consumes) and by explicit effect lists
  (for actions the code performs).
* String handling is done on `List Char`.  Rust's `str::trim` (Unicode
  white space) is modelled on the ASCII white-space characters, which are
  the only ones exercised here.
-/

/-! ## Character and string utilities shared by the embedded functions -/

/-- ASCII decimal digit test, mirroring Rust's `char::is_digit(10)` /
`char::is_ascii_digit` on the characters that occur in the modelled inputs. -/
def isAsciiDigit (c : Char) : Bool :=
  '0' ≤ c && c ≤ '9'

/-- Numeric value of an ASCII digit character. -/
def digitVal (c : Char) : Nat :=
  c.toNat - '0'.toNat

/-- Value of a string of decimal digits, most significant first. -/
def digitsToNat (l : List Char) : Nat :=
  l.foldl (fun acc c => acc * 10 + digitVal c) 0

/-- White-space test used to model Rust's `str::trim`.  Rust trims Unicode
`White_Space` characters; the embedded inputs only ever contain the ASCII
ones, which are listed here. -/
def isWhitespaceChar (c : Char) : Bool :=
  c = ' ' || c = '\t' || c = '\n' || c = '\r' || c = '\x0b' || c = '\x0c'

/-- Model of `str::trim_start`. -/
def trimLeftChars (l : List Char) : List Char :=
  l.dropWhile isWhitespaceChar

/-- Model of `str::trim_end` (`List.rdropWhile p l` is definitionally
`(l.reverse.dropWhile p).reverse`). -/
def trimRightChars (l : List Char) : List Char :=
  l.rdropWhile isWhitespaceChar

/-- Model of `str::trim`. -/
def trimChars (l : List Char) : List Char :=
  trimRightChars (trimLeftChars l)

/-- Model of `str::strip_suffix(c)`: if the string ends with `c`, the string
without that final character, else `none`. -/
def stripSuffixChar (l : List Char) (c : Char) : Option (List Char) :=
  match l.reverse with
  | [] => none
  | x :: rest => if x = c then some rest.reverse else none

/-- Drops one optional leading plus sign, as Rust's unsigned-integer
`FromStr` implementations do. -/
def stripPlus (l : List Char) : List Char :=
  match l with
  | '+' :: rest => rest
  | _ => l

/-- Model of Rust's `str::parse::<u64>()` (`u64::from_str`): an optional
leading `'+'`, then one or more decimal digits, value below `2 ^ 64`;
anything else — including overflow — is a parse error (`none`). -/
def parseU64 (l : List Char) : Option Nat :=
  let body := stripPlus l
  if body.isEmpty then none
  else if !body.all isAsciiDigit then none
  else if digitsToNat body < 2 ^ 64 then some (digitsToNat body)
  else none

/-! ## `release_controller.rs`: `parse_duration_str`

Embeds `parse_duration_str` (release_controller.rs, lines 732–746): trim the
input, then try to strip the suffix `'s'`, `'m'`, `'h'` in that order; parse
the remainder as `u64`; scale minutes by 60 and hours by 3600 (the
multiplication is `u64` arithmetic, hence the explicit wrap).  Any failure
produces `Error::InvalidIntervalFormat` carrying the trimmed input. -/

/-- Error type of the release controller, restricted to the variant the
embedded functions can produce. -/
inductive ReleaseCtrlError where
  | invalidIntervalFormat (s : List Char)
deriving DecidableEq, Repr

/-- Embedding of `release_controller.rs::parse_duration_str` (the identical
function also appears in `dr_controller.rs` as `parse_duration_str` with the
`InvalidInterval` error variant; both are modelled by this definition). -/
def parse_duration_str (s : List Char) : Except ReleaseCtrlError Nat :=
  let t := trimChars s
  match stripSuffixChar t 's' with
  | some numStr =>
      match parseU64 numStr with
      | some secs => .ok secs
      | none => .error (.invalidIntervalFormat t)
  | none =>
  match stripSuffixChar t 'm' with
  | some numStr =>
      match parseU64 numStr with
      | some mins => .ok (mins * 60 % 2 ^ 64)
      | none => .error (.invalidIntervalFormat t)
  | none =>
  match stripSuffixChar t 'h' with
  | some numStr =>
      match parseU64 numStr with
      | some hours => .ok (hours * 3600 % 2 ^ 64)
      | none => .error (.invalidIntervalFormat t)
  | none => .error (.invalidIntervalFormat t)

/-- The acceptance language claimed by the specification for the duration
parser, written from the spec's words: after trimming, a non-empty string of
decimal digits followed by exactly one unit character `s`, `m` or `h`. -/
def specDurationShape (s : List Char) : Bool :=
  match (trimChars s).reverse with
  | [] => false
  | u :: revDigits =>
      (u = 's' || u = 'm' || u = 'h')
        && !revDigits.isEmpty && revDigits.all isAsciiDigit

/-- Reference model of the duration parser as amended: after trimming, an
optional leading `'+'`, then a non-empty digit string whose value fits in an
unsigned 64-bit integer, then one unit character; seconds are the parsed
value, minutes and hours scale by 60 / 3600 in wrapping 64-bit arithmetic.
Everything else is rejected. -/
def durationSpecModel (s : List Char) : Option Nat :=
  match (trimChars s).reverse with
  | [] => none
  | u :: revDigits =>
      match parseU64 revDigits.reverse with
      | none => none
      | some n =>
          if u = 's' then some n
          else if u = 'm' then some (n * 60 % 2 ^ 64)
          else if u = 'h' then some (n * 3600 % 2 ^ 64)
          else none

/-- Forgetful view of an `Except` result as an `Option`. -/
def exceptToOption {ε α : Type} : Except ε α → Option α
  | .ok a => some a
  | .error _ => none

/-! ## `metrics_analyzer.rs`: the success-condition expression evaluator

Embeds `PrometheusClient::evaluate_simple_expression` (metrics_analyzer.rs,
lines 345–411; the identical free function also appears in `dr_controller.rs`,
lines 326–362).  The Rust function recursively splits the (trimmed) expression
at the first occurrence of `"&&"`, else at the first occurrence of `"||"`,
else at the first comparison operator from the ordered list
`["<=", ">=", "==", "!=", "<", ">"]`, parses both operands as `f64` and
compares them; `==`/`!=` compare up to `f64::EPSILON`.

The recursion is embedded with an explicit fuel argument (each recursive call
is on a strictly shorter string, so the wrapper's `length + 1` fuel never
runs out — `evalExprFuel_congr` below makes this precise).  `f64` operand
values are modelled as exact rationals; the operand parser models the plain
decimal fragment of `f64::from_str` (optional sign, digits, optional
fractional part), which covers every operand the controllers substitute. -/

/-- Model of `str::find(pat)`: index of the first occurrence of `pat`
as a contiguous substring (all inputs here are ASCII, so Rust's byte index
coincides with the character index). -/
def findSub (pat : List Char) : List Char → Option Nat
  | [] => if pat.isPrefixOf ([] : List Char) then some 0 else none
  | c :: rest =>
      if pat.isPrefixOf (c :: rest) then some 0
      else (findSub pat rest).map (· + 1)

/-- Model of the plain decimal fragment of `str::parse::<f64>()`: optional
sign, then `digits`, `digits.digits`, `digits.` or `.digits`, read as an
exact rational.  (The exotic forms `inf`/`NaN`/exponents accepted by Rust are
not modelled; no embedded input produces them.) -/
def parseNum (l : List Char) : Option Rat :=
  let signBody : Bool × List Char :=
    match l with
    | '-' :: r => (true, r)
    | '+' :: r => (false, r)
    | _ => (false, l)
  let neg := signBody.1
  let body := signBody.2
  let intPart := body.takeWhile isAsciiDigit
  let rest := body.dropWhile isAsciiDigit
  let mag : Option Rat :=
    match rest with
    | [] => if intPart.isEmpty then none else some (mkRat (digitsToNat intPart) 1)
    | '.' :: frac =>
        if !frac.all isAsciiDigit then none
        else if intPart.isEmpty && frac.isEmpty then none
        else some (mkRat (digitsToNat intPart * 10 ^ frac.length + digitsToNat frac)
          (10 ^ frac.length))
    | _ => none
  mag.map (fun m => if neg then -m else m)

/-- Exact value of `f64::EPSILON`, namely `2 ^ (-52)`. -/
def f64Epsilon : Rat := mkRat 1 (2 ^ 52)

/-- Absolute value on `Rat` (stated directly so that it evaluates inside the
kernel). -/
def ratAbs (q : Rat) : Rat := if q.num < 0 then -q else q

/-- Exact rational subtraction, written via `mkRat` so that it evaluates
inside the kernel (the library's `Rat.sub` is `irreducible`); it agrees with
ordinary rational subtraction. -/
def ratSub (a b : Rat) : Rat := mkRat (a.num * b.den - b.num * a.den) (a.den * b.den)

/-- Exact rational addition via `mkRat` (kernel-evaluable). -/
def ratAdd (a b : Rat) : Rat := mkRat (a.num * b.den + b.num * a.den) (a.den * b.den)

/-- Exact rational multiplication via `mkRat` (kernel-evaluable). -/
def ratMul (a b : Rat) : Rat := mkRat (a.num * b.num) (a.den * b.den)

/-- Exact rational division via `mkRat` (kernel-evaluable).  Division by zero
yields `0` here, where IEEE `f64` would yield `NaN`/`±Inf`; no theorem below
depends on that case. -/
def ratDiv (a b : Rat) : Rat :=
  mkRat (a.num * b.den * (if b.num < 0 then -1 else 1)) (a.den * b.num.natAbs)

/-- The six comparison operators of the expression language. -/
inductive CmpOp where
  | le | ge | eq | ne | lt | gt
deriving DecidableEq, Repr

/-- Characters of a comparison operator. -/
def cmpOpChars : CmpOp → List Char
  | .le => ['<', '=']
  | .ge => ['>', '=']
  | .eq => ['=', '=']
  | .ne => ['!', '=']
  | .lt => ['<']
  | .gt => ['>']

/-- First comparison operator found, in the source's array order
`["<=", ">=", "==", "!=", "<", ">"]` (the order of the *array* decides, not
the position in the string). -/
def findCmpOp (t : List Char) : Option (CmpOp × Nat) :=
  match findSub ['<', '='] t with
  | some p => some (.le, p)
  | none =>
  match findSub ['>', '='] t with
  | some p => some (.ge, p)
  | none =>
  match findSub ['=', '='] t with
  | some p => some (.eq, p)
  | none =>
  match findSub ['!', '='] t with
  | some p => some (.ne, p)
  | none =>
  match findSub ['<'] t with
  | some p => some (.lt, p)
  | none =>
  match findSub ['>'] t with
  | some p => some (.gt, p)
  | none => none

/-- Semantics of a comparison; `==`/`!=` compare up to `f64::EPSILON`,
exactly as the source does. -/
def applyCmpOp (op : CmpOp) (l r : Rat) : Bool :=
  match op with
  | .lt => l < r
  | .le => l ≤ r
  | .gt => l > r
  | .ge => l ≥ r
  | .eq => ratAbs (ratSub l r) < f64Epsilon
  | .ne => ratAbs (ratSub l r) ≥ f64Epsilon

/-- The comparison layer of `evaluate_simple_expression`: split at the first
operator found (array order), trim and parse both operands, compare.  Error
payloads are fixed strings standing for the formatted `anyhow` messages. -/
def evalComparison (t : List Char) : Except (List Char) Bool :=
  match findCmpOp t with
  | some (op, pos) =>
      let leftStr := trimChars (t.take pos)
      let rightStr := trimChars (t.drop (pos + (cmpOpChars op).length))
      match parseNum leftStr with
      | none => .error ("Failed to parse left operand as number".data)
      | some l =>
          match parseNum rightStr with
          | none => .error ("Failed to parse right operand as number".data)
          | some r => .ok (applyCmpOp op l r)
  | none => .error ("Unsupported expression format".data)

/-- Fuel-indexed body of `evaluate_simple_expression`: trim, split at the
first `"&&"` if any, else at the first `"||"` if any, recursing on the two
sides, else evaluate a single comparison. -/
def evalExprFuel : Nat → List Char → Except (List Char) Bool
  | 0, _ => .error ("recursion fuel exhausted".data)
  | fuel + 1, e =>
      let t := trimChars e
      match findSub ['&', '&'] t with
      | some pos => do
          let l ← evalExprFuel fuel (t.take pos)
          let r ← evalExprFuel fuel (t.drop (pos + 2))
          pure (l && r)
      | none =>
      match findSub ['|', '|'] t with
      | some pos => do
          let l ← evalExprFuel fuel (t.take pos)
          let r ← evalExprFuel fuel (t.drop (pos + 2))
          pure (l || r)
      | none => evalComparison t

/-- Embedding of `evaluate_simple_expression`: the fuel `e.length + 1`
bounds the recursion depth, which strictly decreases the string length
(`evalExprFuel_congr` shows any fuel above the length gives the same
result, so the fuel is an artefact of the embedding, not of the source). -/
def evaluate_simple_expression (e : List Char) : Except (List Char) Bool :=
  evalExprFuel (e.length + 1) e

/-! ## `metrics_analyzer.rs`: query execution, trend analysis, `analyze`

The HTTP interaction of `execute_prometheus_query` is modelled by an explicit
outcome parameter (`HttpOutcome`) describing what the Prometheus endpoint
returned: a transport failure, or a status code together with the (possibly
malformed) decoded JSON body.  Everything after the HTTP layer is embedded
from the source. -/

/-- The four outcomes of a single metric analysis (`AnalysisResult`). -/
inductive AnalysisResult where
  | Success
  | Failure
  | Inconclusive
  | TrendingWorse
deriving DecidableEq, Repr

/-- Model of the `f64` values the Prometheus client can hand to the
analyzer: a finite value (an exact rational) or one of the two infinities
(`"+Inf"` / `"-Inf"` results).  `NaN` never reaches the analyzer — the query
layer rejects it. -/
inductive FloatVal where
  | num (q : Rat)
  | posInf
  | negInf
deriving DecidableEq, Repr

/-- A single timestamped metric value (`HistoricalValue` of the analyzer,
with the Unix timestamp as an integer). -/
structure HistoricalValue where
  timestamp : Int
  value : Rat
deriving DecidableEq, Repr

/-- `crds.rs::PredictiveAnalysis`. -/
structure PredictiveAnalysis where
  enabled : Bool
  trend_threshold : Option Rat
deriving DecidableEq, Repr

/-- `crds.rs::Metric`. -/
structure Metric where
  name : List Char
  query : List Char
  on_success : List Char
  predictive_analysis : Option PredictiveAnalysis
deriving DecidableEq, Repr

/-- One entry of a Prometheus query result (`PrometheusResult`): an optional
instant-vector pair `[timestamp, "value"]` and an optional range-vector list
(the label map is irrelevant to the embedded logic and omitted). -/
structure PrometheusResult where
  value : Option (Rat × List Char)
  values : Option (List (Rat × List Char))
deriving DecidableEq, Repr

/-- `PrometheusData`. -/
structure PrometheusData where
  result_type : List Char
  result : List PrometheusResult
deriving DecidableEq, Repr

/-- `PrometheusResponse`. -/
structure PrometheusResponse where
  status : List Char
  data : Option PrometheusData
  error_type : Option (List Char)
  error : Option (List Char)
deriving DecidableEq, Repr

/-- What the HTTP GET against `/api/v1/query` produced: a transport error
(`reqwest::send` failing), or a response with a status code and a body that
either failed JSON decoding or decoded to a `PrometheusResponse`. -/
inductive HttpOutcome where
  | sendError (msg : List Char)
  | response (statusCode : Nat) (body : Except (List Char) PrometheusResponse)

/-- `reqwest::StatusCode::is_success`: code in `200..=299`. -/
def is2xx (code : Nat) : Bool :=
  200 ≤ code && code ≤ 299

/-- Embedding of `PrometheusClient::execute_prometheus_query`
(metrics_analyzer.rs, lines 215–300), given the modelled HTTP outcome:
non-2xx status, malformed JSON, a body whose `status` is not `"success"`,
a missing `data` field, an empty `result` vector, a first result with no
value data, and a `"NaN"` value are all errors; `"+Inf"`/`"-Inf"` map to the
infinite values; anything else is parsed as a number. -/
def execute_prometheus_query (h : HttpOutcome) : Except (List Char) FloatVal :=
  match h with
  | .sendError _ => .error ("Failed to send request to Prometheus".data)
  | .response code body =>
      if !is2xx code then .error ("Prometheus query failed with status".data)
      else
        match body with
        | .error _ => .error ("Failed to parse Prometheus response JSON".data)
        | .ok resp =>
            if resp.status ≠ "success".data then
              .error ("Prometheus returned error".data)
            else
              match resp.data with
              | none => .error ("Prometheus response missing data field".data)
              | some d =>
                  match d.result with
                  | [] => .error ("Prometheus query returned no results".data)
                  | first :: _ =>
                      let valueStr : Option (List Char) :=
                        match first.value, first.values with
                        | some (_, vs), _ => some vs
                        | none, some (v :: _) => some v.2
                        | _, _ => none
                      match valueStr with
                      | none => .error ("Prometheus result contains no value data".data)
                      | some vs =>
                          if vs = "NaN".data then
                            .error ("Prometheus returned NaN".data)
                          else if vs = "+Inf".data then .ok .posInf
                          else if vs = "-Inf".data then .ok .negInf
                          else
                            match parseNum vs with
                            | some q => .ok (.num q)
                            | none => .error ("Failed to parse Prometheus result value as number".data)

/-- Fuel-indexed body of the model of `str::replace` (all occurrences,
left to right, non-overlapping).  The fuel is the input length, which bounds
the number of steps; an empty pattern is mapped to the identity (the source
only ever replaces the non-empty patterns `"result"` and `"value"`). -/
def replaceAllFuel (pat rep : List Char) : Nat → List Char → List Char
  | 0, l => l
  | _ + 1, [] => []
  | fuel + 1, c :: rest =>
      if !pat.isEmpty && pat.isPrefixOf (c :: rest) then
        rep ++ replaceAllFuel pat rep fuel ((c :: rest).drop pat.length)
      else c :: replaceAllFuel pat rep fuel rest

/-- Model of `str::replace(pat, rep)`. -/
def replaceAll (l pat rep : List Char) : List Char :=
  replaceAllFuel pat rep l.length l

/-- Decimal digits of a natural number (via the fuel-structural
`Nat.toDigits`, which the kernel can evaluate). -/
def natToChars (n : Nat) : List Char :=
  Nat.toDigits 10 n

/-- Decimal rendering of an integer. -/
def intToChars (i : Int) : List Char :=
  if i < 0 then '-' :: natToChars i.natAbs else natToChars i.natAbs

/-- Model of `f64`'s `Display` used when substituting the metric value into
the success condition.  Exact for integral values — the only values the
theorems below substitute.  Non-integral values are rendered as an exact
decimal expansion when one with at most 17 fractional digits exists, else as
`num/den`; IEEE shortest-round-trip printing can differ there, and no
theorem depends on that case. -/
def ratToChars (q : Rat) : List Char :=
  if q.den = 1 then intToChars q.num
  else
    let sign : List Char := if q.num < 0 then ['-'] else []
    match (List.range 18).find? (fun k => q.num.natAbs * 10 ^ k % q.den = 0) with
    | some k =>
        let scaled := q.num.natAbs * 10 ^ k / q.den
        let ds := natToChars scaled
        let padded := List.replicate (k + 1 - ds.length) '0' ++ ds
        sign ++ padded.take (padded.length - k) ++ '.' :: padded.drop (padded.length - k)
    | none => sign ++ natToChars q.num.natAbs ++ '/' :: natToChars q.den

/-- Embedding of `PrometheusClient::evaluate_success_condition`
(metrics_analyzer.rs, lines 315–331): reject infinite metric values, then
substitute the textual value for `"result"` and evaluate the expression. -/
def evaluate_success_condition (condition : List Char) (metric_value : FloatVal) :
    Except (List Char) Bool :=
  match metric_value with
  | .posInf => .error ("Cannot evaluate condition with infinite metric value".data)
  | .negInf => .error ("Cannot evaluate condition with infinite metric value".data)
  | .num q => evaluate_simple_expression (replaceAll condition ("result".data) (ratToChars q))

/-- Embedding of `PrometheusClient::analyze_trend` (metrics_analyzer.rs,
lines 450–472): least-squares slope of the history, `none` when fewer than
two points.  (When every timestamp is identical the IEEE division would give
`NaN`/`±Inf` where `ratDiv` gives `0`; no theorem depends on that case.) -/
def analyze_trend (history : List HistoricalValue) : Option Rat :=
  if history.length < 2 then none
  else
    let n : Rat := mkRat history.length 1
    let sums :=
      history.foldl
        (fun (acc : Rat × Rat × Rat × Rat) point =>
          let x := mkRat point.timestamp 1
          let y := point.value
          (ratAdd acc.1 x, ratAdd acc.2.1 y,
            ratAdd acc.2.2.1 (ratMul x y), ratAdd acc.2.2.2 (ratMul x x)))
        (0, 0, 0, 0)
    let sum_x := sums.1
    let sum_y := sums.2.1
    let sum_xy := sums.2.2.1
    let sum_xx := sums.2.2.2
    some (ratDiv (ratSub (ratMul n sum_xy) (ratMul sum_x sum_y))
      (ratSub (ratMul n sum_xx) (ratMul sum_x sum_x)))

/-- Embedding of `PrometheusClient::analyze` (metrics_analyzer.rs, lines
128–203), with the HTTP outcome explicit.  A failing query yields
`(Inconclusive, 0.0)`; a value failing the condition yields `Failure`; a
condition-evaluation error yields `Inconclusive`; a passing value yields
`Success` unless enabled predictive analysis finds a slope above the
threshold (default `0.1`), which yields `TrendingWorse`. -/
def analyze (queryOutcome : HttpOutcome) (metric : Metric)
    (history : List HistoricalValue) : AnalysisResult × FloatVal :=
  match execute_prometheus_query queryOutcome with
  | .error _ => (.Inconclusive, .num 0)
  | .ok metric_value =>
      match evaluate_success_condition metric.on_success metric_value with
      | .ok true =>
          match metric.predictive_analysis with
          | some pa =>
              if pa.enabled then
                let trend_threshold := pa.trend_threshold.getD (mkRat 1 10)
                match analyze_trend history with
                | some slope =>
                    if slope > trend_threshold then (.TrendingWorse, metric_value)
                    else (.Success, metric_value)
                | none => (.Success, metric_value)
              else (.Success, metric_value)
          | none => (.Success, metric_value)
      | .ok false => (.Failure, metric_value)
      | .error _ => (.Inconclusive, metric_value)

/-! ## `crds.rs`: the phRelease data model -/

/-- `crds.rs::ReleasePhase`. -/
inductive ReleasePhase where
  | Progressing
  | Paused
  | Succeeded
  | Failed
  | Promoting
  | RollingBack
deriving DecidableEq, Repr

namespace crds

/-- `crds.rs::HistoricalValue`: a stored metric-history point, with the
RFC 3339 timestamp kept as a string exactly as the status subresource does. -/
structure HistoricalValue where
  timestamp : List Char
  value : FloatVal
deriving DecidableEq, Repr

/-- `crds.rs::MetricHistory`. -/
structure MetricHistory where
  name : List Char
  values : List HistoricalValue
deriving DecidableEq, Repr

end crds

/-- `crds.rs::AnalysisRunStatus` (`success_count`/`failure_count` are
`u32`). -/
structure AnalysisRunStatus where
  success_count : Nat
  failure_count : Nat
  last_check : Option (List Char)
  metric_history : Option (List crds.MetricHistory)
deriving DecidableEq, Repr

/-- `crds.rs::phReleaseStatus`. -/
structure phReleaseStatus where
  phase : Option ReleasePhase
  stable_version : Option (List Char)
  canary_version : Option (List Char)
  traffic_split : Option (List Char)
  current_step : Option Nat
  analysis_run : Option AnalysisRunStatus
  progressing_start_time : Option (List Char)
deriving DecidableEq, Repr

/-- `crds.rs::Analysis` (`threshold` and `max_failures` are `u32`). -/
structure Analysis where
  interval : List Char
  threshold : Nat
  max_failures : Nat
  metrics : List Metric
deriving DecidableEq, Repr

/-- `crds.rs::CanaryStrategy` (`traffic_percent` is `u8`). -/
structure CanaryStrategy where
  traffic_percent : Nat
  auto_increment : Bool
  analysis : Option Analysis
  auto_promote : Bool
deriving DecidableEq, Repr

/-- `crds.rs::BlueGreenStrategy`. -/
structure BlueGreenStrategy where
  auto_promote : Bool
deriving DecidableEq, Repr

/-- `crds.rs::StrategyType`. -/
inductive StrategyType where
  | Canary
  | BlueGreen
deriving DecidableEq, Repr

/-- `crds.rs::ReleaseStrategy`. -/
structure ReleaseStrategy where
  strategy_type : StrategyType
  canary : Option CanaryStrategy
  blue_green : Option BlueGreenStrategy
deriving DecidableEq, Repr

/-- `crds.rs::PublicKeySecretRef`. -/
structure PublicKeySecretRef where
  name : List Char
  key : List Char
deriving DecidableEq, Repr

/-- `crds.rs::SignatureVerification`. -/
structure SignatureVerification where
  public_key_secret_ref : PublicKeySecretRef
deriving DecidableEq, Repr

/-- `crds.rs::Security`. -/
structure Security where
  signature_verification : Option SignatureVerification
deriving DecidableEq, Repr

/-- `crds.rs::phReleaseSpec`. -/
structure phReleaseSpec where
  app_name : List Char
  version : List Char
  strategy : ReleaseStrategy
  security : Option Security
deriving DecidableEq, Repr

/-! ## `release_controller.rs`: metric-history bookkeeping
(`run_metrics_analysis`, lines 409–463) -/

/-- Appends one point to a per-metric history and caps it: push, then if the
length exceeds 20 remove index 0 — exactly the source's
`h.values.push(...); if h.values.len() > 20 { h.values.remove(0); }`. -/
def pushPoint (nowTs : List Char) (v : FloatVal) (values : List crds.HistoricalValue) :
    List crds.HistoricalValue :=
  let pushed := values ++ [⟨nowTs, v⟩]
  if pushed.length > 20 then pushed.drop 1 else pushed

/-- Updates the first history entry named `name` with a new point (capped),
appending a fresh single-point entry when none exists — the source's
`iter_mut().find(...)` / `else push` branch pair. -/
def updateMetricHistory (name : List Char) (nowTs : List Char) (v : FloatVal) :
    List crds.MetricHistory → List crds.MetricHistory
  | [] => [⟨name, [⟨nowTs, v⟩]⟩]
  | h :: rest =>
      if h.name = name then
        { h with values := pushPoint nowTs v h.values } :: rest
      else h :: updateMetricHistory name nowTs v rest

/-- Stored history points of the metric named `name`, decoded for the
analyzer (the source parses each stored RFC 3339 timestamp with `.unwrap()`;
the parser is a model parameter and an unparsable stored timestamp — which
the controller itself never writes — decodes to time `0` here where the
source would panic). -/
def historyPoints (parseTs : List Char → Option Int)
    (history : List crds.MetricHistory) (name : List Char) : List HistoricalValue :=
  match history.find? (fun mh => mh.name = name) with
  | none => []
  | some mh =>
      mh.values.map (fun v =>
        { timestamp := (parseTs v.timestamp).getD 0,
          value := match v.value with | .num q => q | _ => 0 })

/-- Embedding of `run_metrics_analysis` (release_controller.rs, lines
409–463): one pass over the configured metrics, analyzing each against its
HTTP outcome (`outcomes` pairs up with `metrics` positionally) and updating
the shared history as it goes.  Returns the per-metric results and the new
history. -/
def run_metrics_analysis (outcomes : List HttpOutcome)
    (parseTs : List Char → Option Int) (nowTs : List Char)
    (metrics : List Metric) (history : Option (List crds.MetricHistory)) :
    List (List Char × AnalysisResult) × List crds.MetricHistory :=
  (metrics.zip outcomes).foldl
    (fun (acc : List (List Char × AnalysisResult) × List crds.MetricHistory) mo =>
      let metric := mo.1
      let outcome := mo.2
      let points := historyPoints parseTs acc.2 metric.name
      let ra := analyze outcome metric points
      (acc.1 ++ [(metric.name, ra.1)], updateMetricHistory metric.name nowTs ra.2 acc.2))
    ([], history.getD [])

/-! ## `release_controller.rs`: the Progressing-phase analysis decision
(`apply_release`, lines 302–383) -/

/-- Embedding of the decision block run after an analysis pass in the
`Progressing` arm of `apply_release`: update the counters from the pass's
results (`TrendingWorse` pauses immediately; all-success increments
`success_count` and zeroes `failure_count`; any inconclusive leaves both
counters; otherwise `failure_count` is incremented and `success_count`
zeroed), then decide the next phase — `success_count ≥ threshold` first
(`Promoting` under `autoPromote`, else `Paused`), then
`failure_count ≥ maxFailures` (`RollingBack`), else no phase change.
Counter increments are `u32` arithmetic. -/
def progressing_analysis_step (auto_promote : Bool) (analysis_config : Analysis)
    (status : phReleaseStatus) (new_history : List crds.MetricHistory)
    (results : List (List Char × AnalysisResult)) (nowTs : List Char) : phReleaseStatus :=
  let ars0 := status.analysis_run.getD ⟨0, 0, none, none⟩
  let ars1 := { ars0 with metric_history := some new_history }
  let all_metrics_passed := results.all (fun r => r.2 = .Success)
  let has_inconclusive := results.any (fun r => r.2 = .Inconclusive)
  let is_trending_worse := results.any (fun r => r.2 = .TrendingWorse)
  if is_trending_worse then
    { status with phase := some .Paused, analysis_run := some ars1 }
  else
    let ars2 :=
      if all_metrics_passed then
        { ars1 with success_count := (ars1.success_count + 1) % 2 ^ 32, failure_count := 0 }
      else if has_inconclusive then ars1
      else
        { ars1 with failure_count := (ars1.failure_count + 1) % 2 ^ 32, success_count := 0 }
    let ars3 := { ars2 with last_check := some nowTs }
    let base := { status with analysis_run := some ars3 }
    if ars3.success_count ≥ analysis_config.threshold then
      { base with phase := some (if auto_promote then .Promoting else .Paused) }
    else if ars3.failure_count ≥ analysis_config.max_failures then
      { base with phase := some .RollingBack }
    else base

/-! ## `release_controller.rs`: the mandatory signature-verification
pre-flight (`apply_release`, lines 185–230) -/

/-- First value bound to `k` in an association-list view of the
`BTreeMap<String, String>` of object annotations. -/
def lookupFirst (l : List (List Char × List Char)) (k : List Char) : Option (List Char) :=
  match l.find? (fun kv => kv.1 = k) with
  | none => none
  | some kv => some kv.2

/-- Outcome of the pre-flight check: either reconciliation halts
(`Action::await_change()` after a status patch) before the phase state
machine is entered, or it proceeds into the state machine. -/
inductive PreflightOutcome where
  | halted (newStatus : phReleaseStatus)
  | proceed
deriving DecidableEq, Repr

/-- Embedding of the signature-verification pre-flight at the top of
`apply_release`: skip entirely when the `ph.io/skip-sig-check` annotation
equals `"true"`; otherwise a missing `security.signatureVerification` block
fails the release (phase `Failed`, halt), and a present block runs the
verifier (its outcome is the `verifyOutcome` parameter), halting with phase
`Failed` on error. -/
def apply_release_preflight (annotations : List (List Char × List Char))
    (spec : phReleaseSpec) (status : phReleaseStatus)
    (verifyOutcome : Except (List Char) Unit) : PreflightOutcome :=
  let skip_check : Bool :=
    match lookupFirst annotations ("ph.io/skip-sig-check".data) with
    | some v => v = "true".data
    | none => false
  if skip_check then .proceed
  else
    match spec.security.bind (fun s => s.signature_verification) with
    | none =>
        .halted { status with
          phase := some .Failed,
          traffic_split :=
            some ("Error: Signature verification is mandatory but not configured.".data) }
    | some _ =>
        match verifyOutcome with
        | .ok _ => .proceed
        | .error e =>
            .halted { status with
              phase := some .Failed,
              traffic_split := some ("Error: ".data ++ e) }

/-! ## `preview_controller.rs`: namespace naming and finalizer cleanup -/

/-- `preview_controller.rs::PreviewError`, with message payloads as
strings. -/
inductive PreviewError where
  | manifestApplyError (msg : List Char)
  | gitCloneError (msg : List Char)
  | namespaceCreationError (msg : List Char)
  | statusUpdateError (msg : List Char)
  | kubeError (msg : List Char)
  | missingSpec
deriving DecidableEq, Repr

/-- `crds.rs::phPreviewSpec`. -/
structure phPreviewSpec where
  repo_url : List Char
  branch : List Char
  manifest_path : List Char
  app_name : List Char
deriving DecidableEq, Repr

/-- Embedding of `generate_namespace_name` (preview_controller.rs, lines
118–133): `preview-<branch with '/' replaced by '-'>-<appName>-<first six
bytes of the UID>`.  The source's byte slice `&uid[..6]` panics on a UID
shorter than six bytes (Kubernetes UIDs are 36-byte UUIDs); the model takes
`min 6 (length uid)` characters there. -/
def generate_namespace_name (spec? : Option phPreviewSpec) (uid? : Option (List Char)) :
    Except PreviewError (List Char) :=
  match spec? with
  | none => .error .missingSpec
  | some spec =>
      match uid? with
      | none => .error (.kubeError ("Missing UID".data))
      | some uid =>
          .ok ("preview-".data
            ++ spec.branch.map (fun c => if c = '/' then '-' else c)
            ++ "-".data ++ spec.app_name
            ++ "-".data ++ uid.take 6)

/-- What the apiserver answered to the namespace `delete` call in
`cleanup_preview`: success, an API error with its HTTP code (404 is
NotFound), or a non-API transport error. -/
inductive DeleteOutcome where
  | ok
  | apiErr (code : Nat) (msg : List Char)
  | otherErr (msg : List Char)
deriving DecidableEq, Repr

/-- Embedding of `cleanup_preview` (preview_controller.rs, lines 353–401):
decrement the active gauge, compute the namespace name (its failure is
propagated), patch status to `Terminating` (failure propagated), issue the
namespace delete, and return success.  Every branch of the delete `match` —
success, 404, other API errors, and transport errors — only logs and falls
through to `Ok(Action::await_change())`; under the `kube-rs` `finalizer`
helper a returned `Ok` is what allows the finalizer to be removed. -/
def cleanup_preview (spec? : Option phPreviewSpec) (uid? : Option (List Char))
    (statusUpdateOutcome : Except PreviewError Unit)
    (deleteOutcome : DeleteOutcome) : Except PreviewError Unit :=
  match generate_namespace_name spec? uid? with
  | .error e => .error e
  | .ok _ns_name =>
      match statusUpdateOutcome with
      | .error e => .error e
      | .ok _ =>
          match deleteOutcome with
          | .ok => .ok ()
          | .apiErr code _ =>
              if code = 404 then .ok ()
              else .ok ()
          | .otherErr _ => .ok ()

/-! ## `autoheal_controller.rs`: duration parsing and `process_rule` -/

/-- `autoheal_controller.rs::Error`, restricted to the variants the embedded
functions can produce. -/
inductive AutoHealError where
  | kubeError (msg : List Char)
  | durationParseError (s : List Char) (msg : List Char)
  | missingObjectKey (k : List Char)
  | failoverError (msg : List Char)
deriving DecidableEq, Repr

/-- Embedding of `autoheal_controller.rs::parse_duration` (lines 599–614):
split the trimmed string at the first non-digit, parse the digit prefix as
`i64` (it carries no sign, so only overflow can fail), and scale by the unit
`s`/`m`/`h`; any other unit — including the empty one — is an error. -/
def autoheal_parse_duration (s : List Char) : Except AutoHealError Int :=
  let t := trimChars s
  let numeric := t.takeWhile isAsciiDigit
  let unit := t.dropWhile isAsciiDigit
  if numeric.isEmpty then .error (.durationParseError t ("Invalid numeric part".data))
  else if 2 ^ 63 - 1 < digitsToNat numeric then
    .error (.durationParseError t ("Invalid numeric part".data))
  else
    let value : Int := digitsToNat numeric
    if unit = "s".data then .ok value
    else if unit = "m".data then .ok (value * 60)
    else if unit = "h".data then .ok (value * 3600)
    else .error (.durationParseError t ("Unsupported unit".data))

/-- `crds.rs::RedeployAction`. -/
structure RedeployAction where
  target : List Char
deriving DecidableEq, Repr

/-- `crds.rs::ScaleUpAction` (`replicas` is `i32`). -/
structure ScaleUpAction where
  target : List Char
  replicas : Int
deriving DecidableEq, Repr

/-- `crds.rs::RunbookSpec`. -/
structure RunbookSpec where
  script_name : List Char
deriving DecidableEq, Repr

/-- `crds.rs::SlackNotify`. -/
structure SlackNotify where
  webhook_url_secret_ref : List Char
  message : List Char
deriving DecidableEq, Repr

/-- `crds.rs::IssueNotify`. -/
structure IssueNotify where
  project : List Char
  title : List Char
  body : List Char
deriving DecidableEq, Repr

/-- `crds.rs::NotifyAction`. -/
structure NotifyAction where
  slack : Option SlackNotify
  issue : Option IssueNotify
deriving DecidableEq, Repr

/-- `crds.rs::SnapshotAction`. -/
structure SnapshotAction where
  name : List Char
  include_logs : Bool
  include_traces : Bool
  include_db_dump : Bool
deriving DecidableEq, Repr

/-- `crds.rs::ActionSpec`. -/
structure ActionSpec where
  redeploy : Option RedeployAction
  scale_up : Option ScaleUpAction
  runbook : Option RunbookSpec
  notify : Option NotifyAction
  snapshot : Option SnapshotAction
deriving DecidableEq, Repr

/-- `crds.rs::HealState`. -/
inductive HealState where
  | Idle
  | Triggered
  | Executing
  | Cooldown
  | Failed
deriving DecidableEq, Repr

/-- `crds.rs::StatusCondition`. -/
structure StatusCondition where
  type_ : List Char
  message : List Char
deriving DecidableEq, Repr

/-- `crds.rs::phAutoHealRuleStatus` (`executions_count` is `u32`). -/
structure phAutoHealRuleStatus where
  state : Option HealState
  last_execution_time : Option (List Char)
  executions_count : Option Nat
  conditions : List StatusCondition
deriving DecidableEq, Repr

/-- `crds.rs::phAutoHealRuleSpec`. -/
structure phAutoHealRuleSpec where
  trigger_name : List Char
  cooldown : List Char
  actions : List ActionSpec
deriving DecidableEq, Repr

/-- A `phAutoHealRule` object, with the object name kept for Job naming. -/
structure phAutoHealRule where
  name : List Char
  spec : phAutoHealRuleSpec
  status : Option phAutoHealRuleStatus
deriving DecidableEq, Repr

/-- An Alertmanager alert (label and annotation maps as association
lists). -/
structure Alert where
  labels : List (List Char × List Char)
  annotations : List (List Char × List Char)
deriving DecidableEq, Repr

/-- The observable side effects `process_rule` can perform, in order:
Deployment patches (redeploy and scale-up), Job creation (runbook),
notifications, snapshots, and the final status patch. -/
inductive HealEffect where
  | deploymentPatched (target : List Char)
  | jobCreated (name : List Char)
  | notificationSent
  | snapshotTaken
  | statusPatched (newStatus : phAutoHealRuleStatus)
deriving DecidableEq, Repr

/-- Effects attempted for one `ActionSpec`, following the source's
`if let`-chain priority (redeploy, scale-up, runbook, notify, snapshot; an
empty action only logs).  API failures inside an action are logged, not
propagated, so the attempted effect is recorded unconditionally. -/
def actionEffects (rule : phAutoHealRule) (nowTag : List Char) (action : ActionSpec) :
    List HealEffect :=
  match action.redeploy with
  | some a => [.deploymentPatched a.target]
  | none =>
  match action.scale_up with
  | some a => [.deploymentPatched a.target]
  | none =>
  match action.runbook with
  | some _ => [.jobCreated ("autoheal-".data ++ rule.name ++ "-".data ++ nowTag)]
  | none =>
  match action.notify with
  | some _ => [.notificationSent]
  | none =>
  match action.snapshot with
  | some _ => [.snapshotTaken]
  | none => []

/-- The status written by `autoheal_controller.rs::update_status` after the
actions ran: state `Executing`, fresh `lastExecutionTime`, incremented
`executionsCount` (`u32`), and a single `Triggered` condition. -/
def autoheal_new_status (rule : phAutoHealRule) (nowTs : List Char) : phAutoHealRuleStatus :=
  { state := some .Executing,
    last_execution_time := some nowTs,
    executions_count :=
      some (((rule.status.bind (fun s => s.executions_count)).getD 0 + 1) % 2 ^ 32),
    conditions := [⟨"Triggered".data, "Auto-heal action Job has been created.".data⟩] }

/-- Embedding of `process_rule` (autoheal_controller.rs, lines 284–333).
The cooldown gate: when the rule's status carries a `lastExecutionTime` that
parses (parser is the `parseTs` model parameter) and
`lastExec + cooldown > now`, the function returns at once — no effects.  An
unparsable cooldown inside the gate propagates as an error (`?`), also with
no effects.  Otherwise every action's effects are attempted in order and the
status is patched. -/
def process_rule (rule : phAutoHealRule) (alert : Alert) (now : Int)
    (parseTs : List Char → Option Int) (nowTs : List Char) (nowTag : List Char) :
    Except AutoHealError (List HealEffect) :=
  let run : List HealEffect :=
    (rule.spec.actions.foldl (fun acc a => acc ++ actionEffects rule nowTag a) [])
      ++ [.statusPatched (autoheal_new_status rule nowTs)]
  let _ := alert
  match rule.status with
  | none => .ok run
  | some status =>
      match status.last_execution_time with
      | none => .ok run
      | some lastExecStr =>
          match parseTs lastExecStr with
          | none => .ok run
          | some lastExec =>
              match autoheal_parse_duration rule.spec.cooldown with
              | .error e => .error e
              | .ok cooldown =>
                  if lastExec + cooldown > now then .ok []
                  else .ok run

/-! ## `dr_controller.rs`: the Monitoring arm of the DR state machine -/

/-- `crds.rs::DRState`. -/
inductive DRState where
  | Monitoring
  | Degraded
  | FailingOver
  | ActiveOnDR
  | Failed
deriving DecidableEq, Repr

/-- `crds.rs::ActiveCluster`. -/
inductive ActiveCluster where
  | Primary
  | DR
deriving DecidableEq, Repr

/-- The health-check policy as the DR controller reads it
(`spec.policy.healthCheck`): `successCondition` is optional there, with
`"value > 0"` as the stated backward-compatibility default.  (The operator's
`crds.rs` declares `prometheusQuery`/`interval`/`failureThreshold`, with
`failure_threshold : u32`; the module-level `dr_crd.rs` also declares
`successCondition` — the controller code is the authority for the fields it
uses.) -/
structure DRHealthCheckPolicy where
  prometheus_query : List Char
  success_condition : Option (List Char)
  interval : List Char
  failure_threshold : Nat
deriving DecidableEq, Repr

/-- `crds.rs::PhgitDisasterRecoveryStatus` (`consecutive_failures` is
`u32`). -/
structure PhgitDisasterRecoveryStatus where
  active_cluster : Option ActiveCluster
  state : Option DRState
  last_health_check_time : Option (List Char)
  consecutive_failures : Nat
  conditions : List StatusCondition
deriving DecidableEq, Repr

/-- `dr_controller.rs::Error`, restricted to the variant the embedded
function produces. -/
inductive DRCtrlError where
  | invalidInterval (s : List Char)
deriving DecidableEq, Repr

/-- Textual `f64` rendering used for the `"value"` substitution in the DR
health check (Rust's `Display` prints the infinities as `inf`/`-inf`). -/
def floatValToChars (v : FloatVal) : List Char :=
  match v with
  | .num q => ratToChars q
  | .posInf => "inf".data
  | .negInf => "-inf".data

/-- The health-check verdict computed inside the `Monitoring` arm
(dr_controller.rs, lines 135–164): a failed query is a failure; otherwise
the (defaulted) success condition is evaluated with `"value"` replaced by
the metric value, and an evaluation error also counts as failure. -/
def dr_check_is_successful (queryOutcome : HttpOutcome) (policy : DRHealthCheckPolicy) : Bool :=
  match execute_prometheus_query queryOutcome with
  | .error _ => false
  | .ok metric_value =>
      let success_condition := policy.success_condition.getD ("value > 0".data)
      let expression := replaceAll success_condition ("value".data) (floatValToChars metric_value)
      match evaluate_simple_expression expression with
      | .ok is_success => is_success
      | .error _ => false

/-- Embedding of the `Monitoring` arm of `dr_controller.rs::reconcile`
(lines 127–186): parse the check interval (an invalid interval aborts the
reconcile before any status change), run the health check; success zeroes
`consecutiveFailures`, keeps the state `Monitoring` and stamps
`lastHealthCheckTime`; failure increments `consecutiveFailures` (`u32`) and
moves the state to `Degraded` exactly when the new count has reached
`failureThreshold`. -/
def dr_monitoring_step (policy : DRHealthCheckPolicy)
    (status : PhgitDisasterRecoveryStatus) (queryOutcome : HttpOutcome)
    (nowTs : List Char) : Except DRCtrlError PhgitDisasterRecoveryStatus :=
  match parse_duration_str policy.interval with
  | .error _ => .error (.invalidInterval (trimChars policy.interval))
  | .ok _interval =>
      if dr_check_is_successful queryOutcome policy then
        .ok { status with
          consecutive_failures := 0,
          state := some .Monitoring,
          last_health_check_time := some nowTs }
      else
        let f := (status.consecutive_failures + 1) % 2 ^ 32
        if f ≥ policy.failure_threshold then
          .ok { status with consecutive_failures := f, state := some .Degraded }
        else
          .ok { status with consecutive_failures := f }

/-! # Theorems -/

/-! ### Fuel adequacy for the evaluator -/

/-- Trimming never lengthens a string. -/
theorem trimChars_length_le (l : List Char) : (trimChars l).length ≤ l.length := by
  unfold trimChars trimRightChars trimLeftChars
  exact le_trans (List.rdropWhile_prefix _ _).length_le (List.dropWhile_suffix _).length_le

/-- A match of `pat` found at `p` lies inside the string. -/
theorem findSub_bound (pat : List Char) :
    ∀ (l : List Char) (p : Nat), findSub pat l = some p → p + pat.length ≤ l.length := by
  intro l
  induction l with
  | nil =>
      intro p h
      unfold findSub at h
      split at h
      · rename_i hpre
        have : pat <+: ([] : List Char) := List.isPrefixOf_iff_prefix.mp hpre
        have hlen := this.length_le
        simp at h
        omega
      · exact absurd h (by simp)
  | cons c rest ih =>
      intro p h
      unfold findSub at h
      split at h
      · rename_i hpre
        have : pat <+: (c :: rest) := List.isPrefixOf_iff_prefix.mp hpre
        have hlen := this.length_le
        simp at h
        simp [← h] at hlen ⊢
        omega
      · rw [Option.map_eq_some'] at h
        obtain ⟨q, hq, rfl⟩ := h
        have := ih q hq
        simp
        omega

/-- Any two fuel values above the string length evaluate alike, so the
wrapper's choice of `length + 1` is immaterial: the embedded recursion
always terminates within the provided fuel, as the source's recursion
terminates on strictly shorter strings. -/
theorem evalExprFuel_congr :
    ∀ (f₁ f₂ : Nat) (e : List Char), e.length < f₁ → e.length < f₂ →
      evalExprFuel f₁ e = evalExprFuel f₂ e := by
  intro f₁
  induction f₁ with
  | zero => intro f₂ e h1 _; omega
  | succ a ih =>
      intro f₂ e h1 h2
      cases f₂ with
      | zero => omega
      | succ b =>
          have ht : (trimChars e).length ≤ e.length := trimChars_length_le e
          simp only [evalExprFuel]
          cases hf : findSub ['&', '&'] (trimChars e) with
          | some pos =>
              have hb := findSub_bound _ _ _ hf
              simp at hb
              have htk : ((trimChars e).take pos).length < a := by
                simp [List.length_take]; omega
              have htk2 : ((trimChars e).take pos).length < b := by
                simp [List.length_take]; omega
              have hdp : ((trimChars e).drop (pos + 2)).length < a := by
                simp [List.length_drop]; omega
              have hdp2 : ((trimChars e).drop (pos + 2)).length < b := by
                simp [List.length_drop]; omega
              simp only [hf, ih b _ htk htk2, ih b _ hdp hdp2]
          | none =>
              cases hg : findSub ['|', '|'] (trimChars e) with
              | some pos =>
                  have hb := findSub_bound _ _ _ hg
                  simp at hb
                  have htk : ((trimChars e).take pos).length < a := by
                    simp [List.length_take]; omega
                  have htk2 : ((trimChars e).take pos).length < b := by
                    simp [List.length_take]; omega
                  have hdp : ((trimChars e).drop (pos + 2)).length < a := by
                    simp [List.length_drop]; omega
                  have hdp2 : ((trimChars e).drop (pos + 2)).length < b := by
                    simp [List.length_drop]; omega
                  simp only [hf, hg, ih b _ htk htk2, ih b _ hdp hdp2]
              | none => simp only [hf, hg]

/-- Helper for claim C9: the duration parser agrees with the amended
reference model on every input. -/
theorem parse_duration_str_eq_model (s : List Char) :
    exceptToOption (parse_duration_str s) = durationSpecModel s := by
  unfold parse_duration_str durationSpecModel stripSuffixChar
  generalize trimChars s = t
  rcases h : t.reverse with _ | ⟨u, rev⟩ <;> simp only [h]
  · rfl
  · by_cases hs : u = 's'
    · subst hs
      simp only [reduceIte]
      cases hp : parseU64 rev.reverse <;> simp [hp, exceptToOption]
    · by_cases hm : u = 'm'
      · subst hm
        simp only [reduceIte, hs, if_neg]
        cases hp : parseU64 rev.reverse <;> simp [hp, exceptToOption]
      · by_cases hh : u = 'h'
        · subst hh
          simp only [reduceIte, hs, hm, if_neg]
          cases hp : parseU64 rev.reverse <;> simp [hp, exceptToOption]
        · simp only [hs, hm, hh, if_neg, ite_false]
          cases hp : parseU64 rev.reverse <;> simp [hp, exceptToOption, hs, hm, hh]

/-- Claim C9 (amended): after trimming, `parse_duration_str` accepts exactly
the strings formed of an optionally `'+'`-prefixed non-negative integer that
fits in an unsigned 64-bit value followed by one unit character `s`, `m` or
`h`, returning the seconds (minutes and hours scaled by 60/3600 in wrapping
64-bit arithmetic); all other inputs fail with `InvalidIntervalFormat`.  The
stated round trips `30s ↦ 30`, `5m ↦ 300`, `2h ↦ 7200` hold, and `invalid`,
`30x`, `1h30m` and fractional numbers are rejected. -/
theorem parse_duration_str_spec :
    (∀ s : List Char, exceptToOption (parse_duration_str s) = durationSpecModel s)
    ∧ parse_duration_str ("30s".data) = .ok 30
    ∧ parse_duration_str ("5m".data) = .ok 300
    ∧ parse_duration_str ("2h".data) = .ok 7200
    ∧ parse_duration_str ("invalid".data) = .error (.invalidIntervalFormat ("invalid".data))
    ∧ parse_duration_str ("30x".data) = .error (.invalidIntervalFormat ("30x".data))
    ∧ parse_duration_str ("1h30m".data) = .error (.invalidIntervalFormat ("1h30m".data))
    ∧ parse_duration_str ("1.5s".data) = .error (.invalidIntervalFormat ("1.5s".data)) :=
  ⟨parse_duration_str_eq_model, rfl, rfl, rfl, rfl, rfl, rfl, rfl⟩

/-- Counterexample to claim C9 as stated: `"18446744073709551616s"` is a
non-negative integer followed by the unit `s` (the shape the claim says is
accepted), yet the parser rejects it — the value does not fit in `u64`. -/
theorem parse_duration_str_overflow_counterexample :
    specDurationShape ("18446744073709551616s".data) = true
    ∧ parse_duration_str ("18446744073709551616s".data)
        = .error (.invalidIntervalFormat ("18446744073709551616s".data)) :=
  ⟨by decide, rfl⟩

/-- Claim C2: any query-level error — HTTP non-2xx, malformed JSON, a
response whose `status` is not `"success"`, a missing `data` field, or an
empty result vector — makes `analyze` return `(Inconclusive, 0.0)` and never
`Failure`, so a broken telemetry pipeline cannot by itself drive
`failureCount` toward a rollback. -/
theorem analyze_query_error_inconclusive (metric : Metric) (history : List HistoricalValue)
    (code : Nat) (body : Except (List Char) PrometheusResponse)
    (hq : is2xx code = false
        ∨ (∃ msg, body = Except.error msg)
        ∨ ∃ resp, body = Except.ok resp ∧
            (resp.status ≠ "success".data
              ∨ resp.data = none
              ∨ ∃ d, resp.data = some d ∧ d.result = [])) :
    analyze (.response code body) metric history = (.Inconclusive, .num 0)
    ∧ (analyze (.response code body) metric history).1 ≠ .Failure := by
  have herr : ∃ msg, execute_prometheus_query (.response code body) = .error msg := by
    simp only [execute_prometheus_query]
    rcases hq with h | ⟨msg, rfl⟩ | ⟨resp, rfl, hr⟩
    · exact ⟨_, by rw [if_pos (by simp [h])]⟩
    · by_cases hc : is2xx code = true
      · simp [hc]
      · simp [Bool.not_eq_true _ ▸ hc]
    · by_cases hc : is2xx code = true
      · rcases hr with h | h | ⟨d, hd, hres⟩
        · simp [hc, h]
        · by_cases hs : resp.status = "success".data <;> simp [hc, hs, h]
        · by_cases hs : resp.status = "success".data <;> simp [hc, hs, hd, hres]
      · simp [hc]
  obtain ⟨msg, herr⟩ := herr
  constructor
  · simp [analyze, herr]
  · simp [analyze, herr]

/-- Witness for claim C2 at a concrete input: an HTTP 500 response. -/
theorem analyze_query_error_inconclusive_witness :
    is2xx 500 = false
    ∧ (analyze (.response 500 (.ok ⟨"success".data, none, none, none⟩))
          (⟨"m".data, "q".data, "result < 1".data, none⟩ : Metric) []
        = (.Inconclusive, .num 0)
      ∧ (analyze (.response 500 (.ok ⟨"success".data, none, none, none⟩))
          (⟨"m".data, "q".data, "result < 1".data, none⟩ : Metric) []).1 ≠ .Failure) :=
  ⟨by decide,
    analyze_query_error_inconclusive ⟨"m".data, "q".data, "result < 1".data, none⟩ [] 500
      (.ok ⟨"success".data, none, none, none⟩) (Or.inl (by decide))⟩

/-- Claim C10: when the `ph.io/skip-sig-check` annotation is not set to
`"true"` and the spec has no `security.signatureVerification` block, the
pre-flight check of `apply_release` halts the reconcile with
`status.phase = Failed` before the phase state machine is entered —
signature verification is mandatory even though the spec field is
optional. -/
theorem apply_release_preflight_mandatory
    (annotations : List (List Char × List Char)) (spec : phReleaseSpec)
    (status : phReleaseStatus) (verifyOutcome : Except (List Char) Unit)
    (hskip : lookupFirst annotations ("ph.io/skip-sig-check".data) ≠ some ("true".data))
    (hcfg : spec.security.bind (fun s => s.signature_verification) = none) :
    apply_release_preflight annotations spec status verifyOutcome
      = .halted { status with
          phase := some .Failed,
          traffic_split :=
            some ("Error: Signature verification is mandatory but not configured.".data) } := by
  have hskipb : (match lookupFirst annotations ("ph.io/skip-sig-check".data) with
      | some v => decide (v = "true".data)
      | none => false) = false := by
    cases hl : lookupFirst annotations ("ph.io/skip-sig-check".data) with
    | none => rfl
    | some v =>
        simp only [decide_eq_false_iff_not]
        intro hv
        exact hskip (by rw [hl, hv])
  unfold apply_release_preflight
  simp [hskipb, hcfg]

/-- Witness for claim C10 at a concrete Release with no annotations and no
security block. -/
theorem apply_release_preflight_mandatory_witness :
    lookupFirst ([] : List (List Char × List Char)) ("ph.io/skip-sig-check".data)
        ≠ some ("true".data)
    ∧ (⟨"app".data, "v1".data, ⟨.Canary, none, none⟩, none⟩ : phReleaseSpec).security.bind
        (fun s => s.signature_verification) = none
    ∧ apply_release_preflight [] ⟨"app".data, "v1".data, ⟨.Canary, none, none⟩, none⟩
        ⟨none, none, none, none, none, none, none⟩ (.ok ())
      = .halted { (⟨none, none, none, none, none, none, none⟩ : phReleaseStatus) with
          phase := some .Failed,
          traffic_split :=
            some ("Error: Signature verification is mandatory but not configured.".data) } :=
  ⟨by decide, rfl,
    apply_release_preflight_mandatory [] ⟨"app".data, "v1".data, ⟨.Canary, none, none⟩, none⟩
      ⟨none, none, none, none, none, none, none⟩ (.ok ()) (by decide) rfl⟩

/-- Claim C5 (amended): `cleanup_preview` reports success — letting the
finalizer be removed — for every outcome of the namespace delete call
(success, NotFound, other API errors, transport errors alike); its result is
exactly the result of the earlier status update, deletion errors being only
logged. -/
theorem cleanup_preview_spec (spec : phPreviewSpec) (uid : List Char)
    (stOut : Except PreviewError Unit) (d : DeleteOutcome) :
    cleanup_preview (some spec) (some uid) stOut d = stOut := by
  unfold cleanup_preview generate_namespace_name
  cases stOut <;> cases d <;> simp

/-- Counterexample to claim C5 as stated: a namespace delete failing with
API code 500 (neither success nor NotFound) still lets `cleanup_preview`
report success, so the finalizer does not stay in place. -/
theorem cleanup_preview_delete_error_counterexample :
    cleanup_preview (some ⟨"r".data, "b".data, "m".data, "a".data⟩)
        (some ("abcdef-1".data)) (.ok ()) (.apiErr 500 ("boom".data)) = .ok ()
    ∧ (500 : Nat) ≠ 404 :=
  ⟨rfl, by decide⟩

/-- Claim C4 (amended): the preview namespace name is a pure function of
`(branch, appName, first six bytes of the UID)` — equal such triples give
equal names — and for fixed branch and app name it is injective on the
six-byte UID prefix, not on whole UIDs. -/
theorem generate_namespace_name_spec (s1 s2 : phPreviewSpec) (u1 u2 : List Char)
    (hb : s1.branch = s2.branch) (ha : s1.app_name = s2.app_name) :
    (u1.take 6 = u2.take 6 →
      generate_namespace_name (some s1) (some u1) = generate_namespace_name (some s2) (some u2))
    ∧ (u1.take 6 ≠ u2.take 6 →
      generate_namespace_name (some s1) (some u1) ≠ generate_namespace_name (some s2) (some u2)) := by
  simp only [generate_namespace_name]
  constructor
  · intro h
    rw [hb, ha, h]
  · intro h hcontra
    apply h
    rw [hb, ha] at hcontra
    simp only [Except.ok.injEq, List.append_cancel_left_eq] at hcontra
    exact hcontra

/-- Witness for claim C4 at concrete inputs whose UID prefixes agree. -/
theorem generate_namespace_name_spec_witness :
    (⟨"r".data, "feat/x".data, "k8s".data, "shop".data⟩ : phPreviewSpec).branch
      = (⟨"r".data, "feat/x".data, "k8s".data, "shop".data⟩ : phPreviewSpec).branch
    ∧ (⟨"r".data, "feat/x".data, "k8s".data, "shop".data⟩ : phPreviewSpec).app_name
      = (⟨"r".data, "feat/x".data, "k8s".data, "shop".data⟩ : phPreviewSpec).app_name
    ∧ ("abcdef-1".data).take 6 = ("abcdef-2".data).take 6
    ∧ generate_namespace_name (some ⟨"r".data, "feat/x".data, "k8s".data, "shop".data⟩)
        (some ("abcdef-1".data))
      = generate_namespace_name (some ⟨"r".data, "feat/x".data, "k8s".data, "shop".data⟩)
        (some ("abcdef-2".data)) :=
  ⟨rfl, rfl, by decide,
    (generate_namespace_name_spec ⟨"r".data, "feat/x".data, "k8s".data, "shop".data⟩
      ⟨"r".data, "feat/x".data, "k8s".data, "shop".data⟩
      ("abcdef-1".data) ("abcdef-2".data) rfl rfl).1 (by decide)⟩

/-- Counterexample to claim C4 as stated: two distinct UIDs sharing their
first six bytes yield the same namespace name for the same branch and app,
so the name function is not injective on distinct UIDs. -/
theorem generate_namespace_name_uid_collision :
    ("abcdef-111111".data ≠ "abcdef-222222".data)
    ∧ generate_namespace_name (some ⟨"r".data, "feat/x".data, "k8s".data, "shop".data⟩)
        (some ("abcdef-111111".data))
      = generate_namespace_name (some ⟨"r".data, "feat/x".data, "k8s".data, "shop".data⟩)
        (some ("abcdef-222222".data)) :=
  ⟨by decide, rfl⟩

/-- Claim C3: a matching alert processed strictly before
`lastExecutionTime + cooldown` performs no action — no Job, no Deployment
patch, no `executionsCount` increment, no status write: `process_rule`
returns an empty effect list. -/
theorem process_rule_cooldown_no_action (rule : phAutoHealRule) (alert : Alert)
    (now : Int) (parseTs : List Char → Option Int) (nowTs nowTag : List Char)
    (st : phAutoHealRuleStatus) (lastStr : List Char) (t d : Int)
    (hst : rule.status = some st)
    (hlast : st.last_execution_time = some lastStr)
    (hparse : parseTs lastStr = some t)
    (hcool : autoheal_parse_duration rule.spec.cooldown = .ok d)
    (hbefore : now < t + d) :
    process_rule rule alert now parseTs nowTs nowTag = .ok [] := by
  unfold process_rule
  rw [hst]
  simp only [hlast, hparse, hcool]
  rw [if_pos (by omega)]

/-- Witness for claim C3 at a concrete rule in cooldown. -/
theorem process_rule_cooldown_no_action_witness :
    (⟨"r".data, ⟨"alert".data, "5m".data, []⟩,
        some ⟨none, some ("T".data), some 1, []⟩⟩ : phAutoHealRule).status
      = some ⟨none, some ("T".data), some 1, []⟩
    ∧ (⟨none, some ("T".data), some 1, []⟩ : phAutoHealRuleStatus).last_execution_time
        = some ("T".data)
    ∧ (fun (_ : List Char) => some (100 : Int)) ("T".data) = some (100 : Int)
    ∧ autoheal_parse_duration ("5m".data) = .ok 300
    ∧ (150 : Int) < 100 + 300
    ∧ process_rule ⟨"r".data, ⟨"alert".data, "5m".data, []⟩,
        some ⟨none, some ("T".data), some 1, []⟩⟩ ⟨[], []⟩ 150
        (fun _ => some 100) ("N".data) ("N".data) = .ok [] :=
  ⟨rfl, rfl, rfl, rfl, by decide,
    process_rule_cooldown_no_action
      ⟨"r".data, ⟨"alert".data, "5m".data, []⟩, some ⟨none, some ("T".data), some 1, []⟩⟩
      ⟨[], []⟩ 150 (fun _ => some 100) ("N".data) ("N".data)
      ⟨none, some ("T".data), some 1, []⟩ ("T".data) 100 300
      rfl rfl rfl rfl (by decide)⟩

/-- Claim C7: in the `Monitoring` state (given a parsable check interval
and an unwrapped `u32` counter), a successful health check resets
`consecutiveFailures` to 0 and keeps the state `Monitoring`; a failed or
inconclusive check increments the counter by exactly 1 and moves the state
to `Degraded` exactly when the new count has reached `failureThreshold`. -/
theorem dr_monitoring_step_spec (policy : DRHealthCheckPolicy)
    (status : PhgitDisasterRecoveryStatus) (q : HttpOutcome) (nowTs : List Char) (i : Nat)
    (hint : parse_duration_str policy.interval = .ok i)
    (hwrap : status.consecutive_failures + 1 < 2 ^ 32)
    (hstate : status.state = none ∨ status.state = some DRState.Monitoring) :
    (dr_check_is_successful q policy = true →
      dr_monitoring_step policy status q nowTs
        = .ok { status with
            consecutive_failures := 0,
            state := some DRState.Monitoring,
            last_health_check_time := some nowTs })
    ∧ (dr_check_is_successful q policy = false →
        policy.failure_threshold ≤ status.consecutive_failures + 1 →
        dr_monitoring_step policy status q nowTs
          = .ok { status with
              consecutive_failures := status.consecutive_failures + 1,
              state := some DRState.Degraded })
    ∧ (dr_check_is_successful q policy = false →
        ¬ policy.failure_threshold ≤ status.consecutive_failures + 1 →
        dr_monitoring_step policy status q nowTs
          = .ok { status with consecutive_failures := status.consecutive_failures + 1 }
        ∧ status.state ≠ some DRState.Degraded) := by
  unfold dr_monitoring_step
  rw [hint]
  have hmod : (status.consecutive_failures + 1) % 2 ^ 32 = status.consecutive_failures + 1 :=
    Nat.mod_eq_of_lt hwrap
  refine ⟨?_, ?_, ?_⟩
  · intro h
    rw [if_pos h]
  · intro h hge
    rw [if_neg (by simp [h]), hmod, if_pos hge]
  · intro h hge
    rw [if_neg (by simp [h]), hmod, if_neg hge]
    refine ⟨rfl, ?_⟩
    rcases hstate with hs | hs <;> simp [hs]

/-- Witness for claim C7 at a concrete healthy check. -/
theorem dr_monitoring_step_spec_witness :
    parse_duration_str (("30s".data : List Char)) = .ok 30
    ∧ (⟨none, none, none, 0, []⟩ : PhgitDisasterRecoveryStatus).consecutive_failures + 1 < 2 ^ 32
    ∧ ((⟨none, none, none, 0, []⟩ : PhgitDisasterRecoveryStatus).state = none
        ∨ (⟨none, none, none, 0, []⟩ : PhgitDisasterRecoveryStatus).state
            = some DRState.Monitoring)
    ∧ dr_check_is_successful
        (.response 200 (.ok ⟨"success".data,
          some ⟨"vector".data, [⟨some (0, "1".data), none⟩]⟩, none, none⟩))
        ⟨"up".data, none, "30s".data, 3⟩ = true
    ∧ dr_monitoring_step ⟨"up".data, none, "30s".data, 3⟩ ⟨none, none, none, 0, []⟩
        (.response 200 (.ok ⟨"success".data,
          some ⟨"vector".data, [⟨some (0, "1".data), none⟩]⟩, none, none⟩)) ("N".data)
      = .ok { (⟨none, none, none, 0, []⟩ : PhgitDisasterRecoveryStatus) with
          consecutive_failures := 0,
          state := some DRState.Monitoring,
          last_health_check_time := some ("N".data) } :=
  ⟨rfl, by decide, Or.inl rfl, rfl,
    (dr_monitoring_step_spec ⟨"up".data, none, "30s".data, 3⟩ ⟨none, none, none, 0, []⟩
      (.response 200 (.ok ⟨"success".data,
        some ⟨"vector".data, [⟨some (0, "1".data), none⟩]⟩, none, none⟩)) ("N".data) 30
      rfl (by decide) (Or.inl rfl)).1 rfl⟩

/-- Helper for claim C8: one capped push keeps a history at or below 20
points. -/
theorem pushPoint_length_le (nowTs : List Char) (v : FloatVal)
    (values : List crds.HistoricalValue) (h : values.length ≤ 20) :
    (pushPoint nowTs v values).length ≤ 20 := by
  simp only [pushPoint]
  split <;> simp_all

/-- Helper for claim C8: updating one metric's history preserves the
20-point bound on every entry. -/
theorem updateMetricHistory_bound (name nowTs : List Char) (v : FloatVal) :
    ∀ (hist : List crds.MetricHistory),
      (∀ mh ∈ hist, mh.values.length ≤ 20) →
      ∀ mh' ∈ updateMetricHistory name nowTs v hist, mh'.values.length ≤ 20 := by
  intro hist
  induction hist with
  | nil =>
      intro _ mh' hmem
      unfold updateMetricHistory at hmem
      simp at hmem
      simp [hmem]
  | cons hd rest ih =>
      intro hb mh' hmem
      unfold updateMetricHistory at hmem
      split at hmem
      next heq =>
        rcases List.mem_cons.mp hmem with h | h
        · subst h
          exact pushPoint_length_le _ _ _ (hb _ (List.mem_cons_self _ _))
        · exact hb _ (List.mem_cons_of_mem _ h)
      next heq =>
        rcases List.mem_cons.mp hmem with h | h
        · subst h
          exact hb _ (List.mem_cons_self _ _)
        · exact ih (fun mh hm => hb mh (List.mem_cons_of_mem _ hm)) _ h

/-- Helper for claim C8: the analysis pass's fold over the configured
metrics preserves the 20-point bound. -/
theorem run_metrics_analysis_fold_bound (parseTs : List Char → Option Int) (nowTs : List Char) :
    ∀ (pairs : List (Metric × HttpOutcome))
      (acc : List (List Char × AnalysisResult) × List crds.MetricHistory),
      (∀ mh ∈ acc.2, mh.values.length ≤ 20) →
      ∀ mh' ∈ (pairs.foldl
          (fun (acc : List (List Char × AnalysisResult) × List crds.MetricHistory) mo =>
            let metric := mo.1
            let outcome := mo.2
            let points := historyPoints parseTs acc.2 metric.name
            let ra := analyze outcome metric points
            (acc.1 ++ [(metric.name, ra.1)], updateMetricHistory metric.name nowTs ra.2 acc.2))
          acc).2,
        mh'.values.length ≤ 20 := by
  intro pairs
  induction pairs with
  | nil => intro acc hacc mh' hmem; exact hacc mh' hmem
  | cons p rest ih =>
      intro acc hacc mh' hmem
      rw [List.foldl_cons] at hmem
      exact ih _ (updateMetricHistory_bound _ _ _ _ hacc) mh' hmem

/-- Helper for claim C8: at the 20-point bound the new point evicts exactly
the oldest point (index 0). -/
theorem pushPoint_evicts (ts : List Char) (v : FloatVal) (values : List crds.HistoricalValue)
    (hlen : values.length = 20) :
    pushPoint ts v values = values.drop 1 ++ [⟨ts, v⟩] := by
  cases values with
  | nil => simp at hlen
  | cons v0 rest =>
      have h19 : rest.length = 19 := by simpa using hlen
      simp only [pushPoint]
      rw [if_pos (by simp [h19])]
      simp

/-- Claim C8: after an analysis pass updates `metricHistory`, every
per-metric history holds at most 20 points (the bound is preserved by every
pass), and when a new point would exceed the bound the oldest point — index
0 — is the one evicted. -/
theorem run_metrics_analysis_history_bounded
    (outcomes : List HttpOutcome) (parseTs : List Char → Option Int) (nowTs : List Char)
    (metrics : List Metric) (history : Option (List crds.MetricHistory))
    (ts : List Char) (v : FloatVal) (values : List crds.HistoricalValue)
    (hbound : (history.getD []).all (fun mh => mh.values.length ≤ 20) = true)
    (hlen : values.length = 20) :
    (run_metrics_analysis outcomes parseTs nowTs metrics history).2.all
        (fun mh => mh.values.length ≤ 20) = true
    ∧ pushPoint ts v values = values.drop 1 ++ [⟨ts, v⟩] := by
  constructor
  · rw [List.all_eq_true] at hbound ⊢
    intro mh' hmem
    simp only [decide_eq_true_eq]
    refine run_metrics_analysis_fold_bound parseTs nowTs (metrics.zip outcomes)
      ([], history.getD []) ?_ mh' ?_
    · intro mh hm
      simpa using hbound mh hm
    · exact hmem
  · exact pushPoint_evicts ts v values hlen

/-- Witness for claim C8 at a history already holding 20 points. -/
theorem run_metrics_analysis_history_bounded_witness :
    ((some [⟨"m".data, List.replicate 20 ⟨"t".data, FloatVal.num 0⟩⟩]
        : Option (List crds.MetricHistory)).getD []).all
      (fun mh => mh.values.length ≤ 20) = true
    ∧ (List.replicate 20 (⟨"t".data, FloatVal.num 0⟩ : crds.HistoricalValue)).length = 20
    ∧ ((run_metrics_analysis [] (fun _ => some 0) ("N".data) []
          (some [⟨"m".data, List.replicate 20 ⟨"t".data, FloatVal.num 0⟩⟩])).2.all
        (fun mh => mh.values.length ≤ 20) = true
      ∧ pushPoint ("N".data) (FloatVal.num 1)
          (List.replicate 20 ⟨"t".data, FloatVal.num 0⟩)
        = (List.replicate 20 (⟨"t".data, FloatVal.num 0⟩ : crds.HistoricalValue)).drop 1
          ++ [⟨"N".data, FloatVal.num 1⟩]) :=
  ⟨by decide, by decide,
    run_metrics_analysis_history_bounded [] (fun _ => some 0) ("N".data) []
      (some [⟨"m".data, List.replicate 20 ⟨"t".data, FloatVal.num 0⟩⟩])
      ("N".data) (FloatVal.num 1) (List.replicate 20 ⟨"t".data, FloatVal.num 0⟩)
      (by decide) (by decide)⟩

/-- Claim C1 (amended): in the reconcile whose analysis pass brings
`successCount` to at least `threshold` (an all-success pass), the phase
becomes `Promoting` when `autoPromote` is true and `Paused` otherwise; and
— provided `threshold ≥ 1`, since the success check is evaluated first and
a zero threshold always wins it — in the reconcile whose pass brings
`failureCount` to `maxFailures` the phase becomes `RollingBack`.  (`u32`
counters are assumed below their wrap.) -/
theorem progressing_analysis_step_thresholds
    (auto_promote : Bool) (cfg : Analysis) (status : phReleaseStatus)
    (new_history : List crds.MetricHistory) (results : List (List Char × AnalysisResult))
    (nowTs : List Char)
    (ht : 1 ≤ cfg.threshold)
    (hwrapS : (status.analysis_run.getD ⟨0, 0, none, none⟩).success_count + 1 < 2 ^ 32)
    (hwrapF : (status.analysis_run.getD ⟨0, 0, none, none⟩).failure_count + 1 < 2 ^ 32) :
    (results.all (fun r => r.2 = .Success) = true →
      cfg.threshold ≤ (status.analysis_run.getD ⟨0, 0, none, none⟩).success_count + 1 →
      (progressing_analysis_step auto_promote cfg status new_history results nowTs).phase
        = some (if auto_promote then ReleasePhase.Promoting else ReleasePhase.Paused))
    ∧ (results.all (fun r => r.2 = .Success) = false →
      results.any (fun r => r.2 = .TrendingWorse) = false →
      results.any (fun r => r.2 = .Inconclusive) = false →
      cfg.max_failures ≤ (status.analysis_run.getD ⟨0, 0, none, none⟩).failure_count + 1 →
      (progressing_analysis_step auto_promote cfg status new_history results nowTs).phase
        = some ReleasePhase.RollingBack) := by
  constructor
  · intro hall hge
    have htrend : results.any (fun r => r.2 = .TrendingWorse) = false := by
      rw [List.any_eq_false]
      intro r hr
      have := List.all_eq_true.mp hall r hr
      simp only [decide_eq_true_eq] at this
      simp [this]
    unfold progressing_analysis_step
    rw [htrend, hall]
    simp only [Bool.false_eq_true, if_false, if_true, reduceIte]
    rw [if_pos (by omega)]
  · intro hall htrend hinc hge
    unfold progressing_analysis_step
    rw [htrend, hall, hinc]
    simp only [Bool.false_eq_true, if_false, if_true, reduceIte]
    rw [if_neg (by omega)]
    rw [if_pos (by omega)]

/-- Witness for claim C1 at a concrete all-success pass crossing the
threshold. -/
theorem progressing_analysis_step_thresholds_witness :
    1 ≤ (⟨"30s".data, 1, 1, []⟩ : Analysis).threshold
    ∧ ((⟨none, none, none, none, none, none, none⟩ : phReleaseStatus).analysis_run.getD
        ⟨0, 0, none, none⟩).success_count + 1 < 2 ^ 32
    ∧ ((⟨none, none, none, none, none, none, none⟩ : phReleaseStatus).analysis_run.getD
        ⟨0, 0, none, none⟩).failure_count + 1 < 2 ^ 32
    ∧ ([("m".data, AnalysisResult.Success)].all (fun r => r.2 = .Success) = true)
    ∧ (⟨"30s".data, 1, 1, []⟩ : Analysis).threshold
        ≤ ((⟨none, none, none, none, none, none, none⟩ : phReleaseStatus).analysis_run.getD
            ⟨0, 0, none, none⟩).success_count + 1
    ∧ (progressing_analysis_step true ⟨"30s".data, 1, 1, []⟩
        ⟨none, none, none, none, none, none, none⟩ [] [("m".data, AnalysisResult.Success)]
        ("N".data)).phase
      = some (if true then ReleasePhase.Promoting else ReleasePhase.Paused) :=
  ⟨by decide, by decide, by decide, by decide, by decide,
    (progressing_analysis_step_thresholds true ⟨"30s".data, 1, 1, []⟩
      ⟨none, none, none, none, none, none, none⟩ [] [("m".data, AnalysisResult.Success)]
      ("N".data) (by decide) (by decide) (by decide)).1 (by decide) (by decide)⟩

/-- Counterexample to claim C1 as stated: with `threshold = 0` and
`maxFailures = 1`, the reconcile in which `failureCount` reaches
`maxFailures` sets the phase to `Promoting`, not `RollingBack` — the
success comparison is checked first and `successCount = 0 ≥ 0` always
holds. -/
theorem progressing_analysis_step_zero_threshold_counterexample :
    ((progressing_analysis_step true ⟨"30s".data, 0, 1, []⟩
        ⟨some .Progressing, none, none, none, none, none, none⟩ []
        [("m".data, .Failure)] ("t".data)).analysis_run.map (fun a => a.failure_count) = some 1)
    ∧ (progressing_analysis_step true ⟨"30s".data, 0, 1, []⟩
        ⟨some .Progressing, none, none, none, none, none, none⟩ []
        [("m".data, .Failure)] ("t".data)).phase = some ReleasePhase.Promoting
    ∧ (progressing_analysis_step true ⟨"30s".data, 0, 1, []⟩
        ⟨some .Progressing, none, none, none, none, none, none⟩ []
        [("m".data, .Failure)] ("t".data)).phase ≠ some ReleasePhase.RollingBack := by
  refine ⟨rfl, rfl, by decide⟩

/-- Helper for claim C6: a string whose `dropWhile` is itself starts with
a character failing the predicate. -/
theorem dropWhile_cons_eq_self {p : Char → Bool} {c : Char} {r : List Char}
    (h : List.dropWhile p (c :: r) = c :: r) : p c = false := by
  by_cases hpc : p c = true
  · rw [List.dropWhile_cons_of_pos hpc] at h
    have h1 := congrArg List.length h
    have h2 := (List.dropWhile_suffix (l := r) p).length_le
    simp at h1
    omega
  · simpa using hpc

/-- Helper for claim C6: a trim-invariant string is both left- and
right-trim invariant. -/
theorem trim_eq_self_parts (x : List Char) (h : trimChars x = x) :
    trimLeftChars x = x ∧ trimRightChars x = x := by
  unfold trimChars at h
  have h1 : (trimLeftChars x).length ≤ x.length :=
    (List.dropWhile_suffix isWhitespaceChar).length_le
  have h2 : (trimRightChars (trimLeftChars x)).length ≤ (trimLeftChars x).length := by
    unfold trimRightChars
    exact (List.rdropWhile_prefix _ _).length_le
  rw [h] at h2
  have hlen : (trimLeftChars x).length = x.length := by omega
  have hL : trimLeftChars x = x :=
    (List.dropWhile_suffix isWhitespaceChar).eq_of_length hlen
  rw [hL] at h
  exact ⟨hL, h⟩

/-- Helper for claim C6: left-trimming does not touch a trim-invariant
prefix followed by a non-white-space character. -/
theorem trimLeftChars_append_mid (x y : List Char) (u : Char)
    (hu : isWhitespaceChar u = false) (htx : trimChars x = x) :
    trimLeftChars (x ++ u :: y) = x ++ u :: y := by
  cases x with
  | nil =>
      simp only [List.nil_append]
      unfold trimLeftChars
      exact List.dropWhile_cons_of_neg (by simp [hu])
  | cons c x' =>
      have hL := (trim_eq_self_parts _ htx).1
      have hc : isWhitespaceChar c = false := dropWhile_cons_eq_self hL
      simp only [List.cons_append]
      unfold trimLeftChars
      exact List.dropWhile_cons_of_neg (by simp [hc])

/-- Helper for claim C6: right-trimming does not touch a trim-invariant
suffix preceded by non-white-space characters. -/
theorem trimRightChars_append_mid (x y : List Char) (u v : Char)
    (hv : isWhitespaceChar v = false) (hty : trimChars y = y) :
    trimRightChars (x ++ u :: v :: y) = x ++ u :: v :: y := by
  unfold trimRightChars List.rdropWhile
  have hrev : (x ++ u :: v :: y).reverse = y.reverse ++ v :: u :: x.reverse := by simp
  rw [hrev]
  cases hy : y.reverse with
  | nil =>
      have hynil : y = [] := by
        have := congrArg List.reverse hy
        simpa using this
      rw [List.nil_append, List.dropWhile_cons_of_neg (by simp [hv])]
      simp [hynil]
  | cons d rest =>
      have hR := (trim_eq_self_parts _ hty).2
      unfold trimRightChars List.rdropWhile at hR
      have hdw : List.dropWhile isWhitespaceChar y.reverse = y.reverse := by
        have := congrArg List.reverse hR
        simpa using this
      rw [hy] at hdw
      have hd : isWhitespaceChar d = false := dropWhile_cons_eq_self hdw
      rw [List.cons_append, List.dropWhile_cons_of_neg (by simp [hd])]
      have hy' : y = rest.reverse ++ [d] := by
        have := congrArg List.reverse hy
        simpa using this
      simp [hy']

/-- Helper for claim C6: gluing trim-invariant strings with two
non-white-space characters is trim-invariant. -/
theorem trimChars_append_mid (x y : List Char) (u v : Char)
    (hu : isWhitespaceChar u = false) (hv : isWhitespaceChar v = false)
    (htx : trimChars x = x) (hty : trimChars y = y) :
    trimChars (x ++ u :: v :: y) = x ++ u :: v :: y := by
  unfold trimChars
  rw [trimLeftChars_append_mid x (v :: y) u hu htx,
    trimRightChars_append_mid x y u v hv hty]

/-- Helper for claim C6: a prefix match fails on mismatched heads. -/
theorem isPrefixOf_cons_of_ne {u x : Char} {pat rest : List Char} (h : u ≠ x) :
    (u :: pat).isPrefixOf (x :: rest) = false := by
  simp [List.isPrefixOf, h]

/-- Helper for claim C6: the first occurrence of a doubled character
after a stretch free of it sits exactly at the boundary. -/
theorem findSub_append_double (u u2 : Char) (a r : List Char) (ha : ∀ c ∈ a, c ≠ u) :
    findSub [u, u2] (a ++ u :: u2 :: r) = some a.length := by
  induction a with
  | nil =>
      simp only [List.nil_append]
      unfold findSub
      rw [if_pos (by simp [List.isPrefixOf])]
      rfl
  | cons c a' ih =>
      have hcu : u ≠ c := fun h => (ha c (List.mem_cons_self _ _)) h.symm
      show findSub [u, u2] (c :: (a' ++ u :: u2 :: r)) = some (c :: a').length
      unfold findSub
      rw [if_neg (by simp [isPrefixOf_cons_of_ne hcu])]
      rw [ih (fun c hc => ha c (List.mem_cons_of_mem _ hc))]
      simp

/-- Helper for claim C6: no occurrence of a doubled character in a string
free of it. -/
theorem findSub_none_of_notmem (u u2 : Char) :
    ∀ (l : List Char), (∀ c ∈ l, c ≠ u) → findSub [u, u2] l = none := by
  intro l
  induction l with
  | nil => intro _; rfl
  | cons c rest ih =>
      intro hl
      have hcu : u ≠ c := fun h => (hl c (List.mem_cons_self _ _)) h.symm
      unfold findSub
      rw [if_neg (by simp [isPrefixOf_cons_of_ne hcu])]
      rw [ih (fun c hc => hl c (List.mem_cons_of_mem _ hc))]
      rfl

/-- Helper for claim C6: the evaluator only looks at the trimmed
expression, whatever fuel bounds are supplied. -/
theorem evalExprFuel_eq_of_trim (f₁ f₂ : Nat) (e₁ e₂ : List Char)
    (h : trimChars e₁ = trimChars e₂) (h₁ : e₁.length < f₁) (h₂ : e₂.length < f₂) :
    evalExprFuel f₁ e₁ = evalExprFuel f₂ e₂ := by
  cases f₁ with
  | zero => omega
  | succ a =>
  cases f₂ with
  | zero => omega
  | succ b =>
  have ht1 : (trimChars e₁).length ≤ e₁.length := trimChars_length_le e₁
  have ht2 : (trimChars e₂).length ≤ e₂.length := trimChars_length_le e₂
  simp only [evalExprFuel, h]
  cases hf : findSub ['&', '&'] (trimChars e₂) with
  | some pos =>
      have hbd := findSub_bound _ _ _ hf
      simp at hbd
      have hl1 : ((trimChars e₂).take pos).length < a := by
        simp [List.length_take]
        rw [← h] at hbd ⊢
        omega
      have hl2 : ((trimChars e₂).take pos).length < b := by
        simp [List.length_take]; omega
      have hd1 : ((trimChars e₂).drop (pos + 2)).length < a := by
        simp [List.length_drop]
        rw [← h] at hbd ⊢
        omega
      have hd2 : ((trimChars e₂).drop (pos + 2)).length < b := by
        simp [List.length_drop]; omega
      simp only [hf, evalExprFuel_congr a b _ hl1 hl2, evalExprFuel_congr a b _ hd1 hd2]
  | none =>
      cases hg : findSub ['|', '|'] (trimChars e₂) with
      | some pos =>
          have hbd := findSub_bound _ _ _ hg
          simp at hbd
          have hl1 : ((trimChars e₂).take pos).length < a := by
            simp [List.length_take]
            rw [← h] at hbd ⊢
            omega
          have hl2 : ((trimChars e₂).take pos).length < b := by
            simp [List.length_take]; omega
          have hd1 : ((trimChars e₂).drop (pos + 2)).length < a := by
            simp [List.length_drop]
            rw [← h] at hbd ⊢
            omega
          have hd2 : ((trimChars e₂).drop (pos + 2)).length < b := by
            simp [List.length_drop]; omega
          simp only [hf, hg, evalExprFuel_congr a b _ hl1 hl2, evalExprFuel_congr a b _ hd1 hd2]
      | none => simp only [hf, hg]

/-- Helper for claim C6: splitting at the first `"&&"`. -/
theorem evalSplitAmp (x y : List Char)
    (hx : ∀ c ∈ x, c ≠ '&')
    (htx : trimChars x = x) (hty : trimChars y = y) :
    evaluate_simple_expression (x ++ '&' :: '&' :: y)
      = (do
          let l ← evaluate_simple_expression x
          let r ← evaluate_simple_expression y
          pure (l && r)) := by
  have hE : trimChars (x ++ '&' :: '&' :: y) = x ++ '&' :: '&' :: y :=
    trimChars_append_mid x y '&' '&' (by decide) (by decide) htx hty
  have hlen : (x ++ '&' :: '&' :: y).length = x.length + 2 + y.length := by
    simp; omega
  have htake : (x ++ '&' :: '&' :: y).take x.length = x := List.take_left x _
  have hdrop : (x ++ '&' :: '&' :: y).drop (x.length + 2) = y := by
    rw [show x ++ '&' :: '&' :: y = (x ++ ['&', '&']) ++ y by simp]
    exact List.drop_left' (by simp)
  have h1 : evalExprFuel (x ++ '&' :: '&' :: y).length x = evaluate_simple_expression x := by
    apply evalExprFuel_congr <;> omega
  have h2 : evalExprFuel (x ++ '&' :: '&' :: y).length y = evaluate_simple_expression y := by
    apply evalExprFuel_congr <;> omega
  show evalExprFuel ((x ++ '&' :: '&' :: y).length + 1) (x ++ '&' :: '&' :: y) = _
  simp only [evalExprFuel]
  rw [hE, findSub_append_double '&' '&' x y hx]
  simp only [htake, hdrop, h1, h2]

/-- Helper for claim C6: splitting at the first `"||"` when no `"&&"`
occurs. -/
theorem evalSplitPipe (x y : List Char)
    (hamp : ∀ c ∈ x ++ '|' :: '|' :: y, c ≠ '&')
    (hx : ∀ c ∈ x, c ≠ '|')
    (htx : trimChars x = x) (hty : trimChars y = y) :
    evaluate_simple_expression (x ++ '|' :: '|' :: y)
      = (do
          let l ← evaluate_simple_expression x
          let r ← evaluate_simple_expression y
          pure (l || r)) := by
  have hE : trimChars (x ++ '|' :: '|' :: y) = x ++ '|' :: '|' :: y :=
    trimChars_append_mid x y '|' '|' (by decide) (by decide) htx hty
  have hlen : (x ++ '|' :: '|' :: y).length = x.length + 2 + y.length := by
    simp; omega
  have htake : (x ++ '|' :: '|' :: y).take x.length = x := List.take_left x _
  have hdrop : (x ++ '|' :: '|' :: y).drop (x.length + 2) = y := by
    rw [show x ++ '|' :: '|' :: y = (x ++ ['|', '|']) ++ y by simp]
    exact List.drop_left' (by simp)
  have h1 : evalExprFuel (x ++ '|' :: '|' :: y).length x = evaluate_simple_expression x := by
    apply evalExprFuel_congr <;> omega
  have h2 : evalExprFuel (x ++ '|' :: '|' :: y).length y = evaluate_simple_expression y := by
    apply evalExprFuel_congr <;> omega
  show evalExprFuel ((x ++ '|' :: '|' :: y).length + 1) (x ++ '|' :: '|' :: y) = _
  simp only [evalExprFuel]
  rw [hE, findSub_none_of_notmem '&' '&' _ hamp, findSub_append_double '|' '|' x y hx]
  simp only [htake, hdrop, h1, h2]

/-- Claim C6 (amended): when both logical operators appear, the evaluator
splits at the first `"&&"` before looking for `"||"`, so `&&` — not the
rightmost operator — becomes the deciding connective: for operator-free
comparison atoms `a`, `b`, `c`, the expression `a && b || c` evaluates as
`a && (b || c)` and `a || b && c` evaluates as `(a || b) && c` (with
operands evaluated left to right and errors propagating in that order). -/
theorem evaluate_simple_expression_amp_splits_first
    (a b c : List Char)
    (ha : ∀ x ∈ a, x ≠ '&' ∧ x ≠ '|')
    (hb : ∀ x ∈ b, x ≠ '&' ∧ x ≠ '|')
    (hc : ∀ x ∈ c, x ≠ '&' ∧ x ≠ '|')
    (hta : trimChars a = a) (htb : trimChars b = b) (htc : trimChars c = c) :
    (evaluate_simple_expression (a ++ "&&".data ++ b ++ "||".data ++ c)
      = (do
          let x ← evaluate_simple_expression a
          let y ← evaluate_simple_expression b
          let z ← evaluate_simple_expression c
          pure (x && (y || z))))
    ∧ (evaluate_simple_expression (a ++ "||".data ++ b ++ "&&".data ++ c)
      = (do
          let x ← evaluate_simple_expression a
          let y ← evaluate_simple_expression b
          let z ← evaluate_simple_expression c
          pure ((x || y) && z))) := by
  constructor
  · have hshape : a ++ "&&".data ++ b ++ "||".data ++ c
        = a ++ '&' :: '&' :: (b ++ '|' :: '|' :: c) := by simp
    rw [hshape]
    rw [evalSplitAmp a (b ++ '|' :: '|' :: c) (fun x hx => (ha x hx).1) hta
      (trimChars_append_mid b c '|' '|' (by decide) (by decide) htb htc)]
    have hampY : ∀ x ∈ b ++ '|' :: '|' :: c, x ≠ '&' := by
      intro x hx
      rcases List.mem_append.mp hx with h | h
      · exact (hb x h).1
      · simp only [List.mem_cons] at h
        rcases h with rfl | rfl | h
        · decide
        · decide
        · exact (hc x h).1
    rw [evalSplitPipe b c hampY (fun x hx => (hb x hx).2) htb htc]
    rcases hA : evaluate_simple_expression a with eA | xA <;>
      rcases hB : evaluate_simple_expression b with eB | xB <;>
        rcases hC : evaluate_simple_expression c with eC | xC <;> rfl
  · have hshape : a ++ "||".data ++ b ++ "&&".data ++ c
        = (a ++ '|' :: '|' :: b) ++ '&' :: '&' :: c := by simp
    rw [hshape]
    have hampX : ∀ x ∈ a ++ '|' :: '|' :: b, x ≠ '&' := by
      intro x hx
      rcases List.mem_append.mp hx with h | h
      · exact (ha x h).1
      · simp only [List.mem_cons] at h
        rcases h with rfl | rfl | h
        · decide
        · decide
        · exact (hb x h).1
    rw [evalSplitAmp (a ++ '|' :: '|' :: b) c hampX
      (trimChars_append_mid a b '|' '|' (by decide) (by decide) hta htb) htc]
    rw [evalSplitPipe a b hampX (fun x hx => (ha x hx).2) hta htb]
    rcases hA : evaluate_simple_expression a with eA | xA <;>
      rcases hB : evaluate_simple_expression b with eB | xB <;>
        rcases hC : evaluate_simple_expression c with eC | xC <;> rfl

/-- Witness for claim C6 at concrete comparison atoms. -/
theorem evaluate_simple_expression_amp_splits_first_witness :
    (∀ x ∈ ("1 < 0".data : List Char), x ≠ '&' ∧ x ≠ '|')
    ∧ (∀ x ∈ ("2 < 3".data : List Char), x ≠ '&' ∧ x ≠ '|')
    ∧ (∀ x ∈ ("0 < 1".data : List Char), x ≠ '&' ∧ x ≠ '|')
    ∧ trimChars ("1 < 0".data) = "1 < 0".data
    ∧ trimChars ("2 < 3".data) = "2 < 3".data
    ∧ trimChars ("0 < 1".data) = "0 < 1".data
    ∧ evaluate_simple_expression
        ("1 < 0".data ++ "&&".data ++ "2 < 3".data ++ "||".data ++ "0 < 1".data)
      = (do
          let x ← evaluate_simple_expression ("1 < 0".data)
          let y ← evaluate_simple_expression ("2 < 3".data)
          let z ← evaluate_simple_expression ("0 < 1".data)
          pure (x && (y || z))) :=
  ⟨by decide, by decide, by decide, by decide, by decide, by decide,
    (evaluate_simple_expression_amp_splits_first ("1 < 0".data) ("2 < 3".data) ("0 < 1".data)
      (by decide) (by decide) (by decide) (by decide) (by decide) (by decide)).1⟩

/-- Counterexample to claim C6 as stated: on `"1 < 0 && 1 < 0 || 0 < 1"`
the evaluator returns `false`, while the claim's reading
`(1 < 0 && 1 < 0) || 0 < 1` is `true`. -/
theorem evaluate_simple_expression_rightmost_counterexample :
    evaluate_simple_expression ("1 < 0 && 1 < 0 || 0 < 1".data) = .ok false
    ∧ (do
        let x ← evaluate_simple_expression ("1 < 0".data)
        let y ← evaluate_simple_expression ("1 < 0".data)
        let z ← evaluate_simple_expression ("0 < 1".data)
        pure ((x && y) || z)) = Except.ok true :=
  ⟨rfl, rfl⟩
